import Mathlib

/-!
# SchedulingAssistant — folder-sync and merge engine: a shallow embedding

This file embeds, in Lean, the folder-based synchronization helpers of the
SchedulingAssistant repository and proves (or refutes) the specification
claims about them.

The embedded functions come from:
* `FolderSyncService` (file naming, folder scanning, backup cleanup,
  checkpoint decision, working-file creation, archival, base update,
  merge-lock handling);
* `MergeDialog.analyzeDbDifferences` (whole-database comparison);
* `MergeConflictDialog.getDifferences` (differing fields of a conflict).

Modelling conventions:
* JavaScript strings are Lean `String`s; a JS regex `.` matches every
  character except the four ECMAScript line terminators, which we model
  with `jsDot`.
* Times are integer milliseconds on a single (local-clock) timeline;
  `new Date(y, m-1, d)` is modelled by `jsMakeDay` (including month/day
  normalization and the two-digit-year rule), and a `Date` value compares
  by its millisecond value.
* The file system is an association list from file name to byte list;
  asynchronous I/O failures are modelled by explicit fault-injection
  parameters where a claim depends on partial-failure behaviour.
* JS number division in day computations is exact here (`Int`
  comparisons rearranged to avoid division), and `NaN` propagation from
  an unparseable `Date` is modelled by an `Option` with the JS rule that
  every comparison against `NaN` is false.
-/

namespace SchedAssist

/-- The four ECMAScript line terminators, which a JS regex `.` does not
match: LF, CR, LINE SEPARATOR (U+2028), PARAGRAPH SEPARATOR (U+2029). -/
def isLineTerminator (c : Char) : Bool :=
  c = '\n' || c = '\r' || c = '\u2028' || c = '\u2029'

/-- A JS regex `.` (no `s` flag) matches `c`. -/
def jsDot (c : Char) : Bool := !(isLineTerminator c)

/-- Constant `BASE_FILE_NAME`. -/
def BASE_FILE_NAME : String := "schedule.base"

/-- Constant `BACKUP_EXTENSION`. -/
def BACKUP_EXTENSION : String := ".bak"

/-- Constant `MERGE_LOCK_FILE`. -/
def MERGE_LOCK_FILE : String := "schedule.merge-lock"

/-- Function `extractEmailFromFileName`: matches `WORKING_FILE_PATTERN`
`/^schedule\.(.+)\.db$/` and returns the captured group.  Because the
pattern is anchored on both sides and its fixed parts have fixed length,
the capture is exactly the characters between the prefix `schedule.` and
the suffix `.db`; `(.+)` requires that span to be non-empty and free of
line terminators. -/
def extractEmailFromFileName (fileName : String) : Option String :=
  let cs := fileName.data
  let n := cs.length
  if 13 ≤ n ∧ cs.take 9 = "schedule.".data ∧ cs.drop (n - 3) = ".db".data
      ∧ ((cs.drop 9).take (n - 12)).all jsDot then
    some (String.mk ((cs.drop 9).take (n - 12)))
  else
    none

/-- Function `createWorkingFileName`: `` `schedule.${email}.db` ``. -/
def createWorkingFileName (email : String) : String :=
  "schedule." ++ email ++ ".db"

/-- Function `createBackupFileName`: `` `${workingFileName}${BACKUP_EXTENSION}.${today}` ``.
The current date string (`new Date().toISOString().split('T')[0]`) is an
explicit parameter `today`. -/
def createBackupFileName (today : String) (workingFileName : String) : String :=
  workingFileName ++ BACKUP_EXTENSION ++ "." ++ today

/-! ## Folder scanning (`scanFolder`) -/
/-- One classified working file: `WorkingFileInfo` (the
`FileSystemFileHandle` is identified by the file name). -/
structure WorkingFileInfo where
  email : String
  fileName : String
  deriving DecidableEq, Repr

/-- The result of `scanFolder`: `FolderScanResult` (handles are
identified by file names). -/
structure FolderScanResult where
  baseFile : Option String
  workingFiles : List WorkingFileInfo
  backupFiles : List String
  needsMerge : Bool
  myWorkingFile : Option String
  deriving DecidableEq, Repr

/-- JS `String.prototype.toLowerCase`, restricted to its ASCII action
(author identities in this code base are ASCII e-mail addresses). -/
def jsToLowerCase (s : String) : String := String.mk (s.data.map Char.toLower)

/-- Whether `needle` occurs as a contiguous substring of the second list. -/
def hasSubstr (needle : List Char) : List Char → Bool
  | [] => needle.isEmpty
  | c :: rest => needle.isPrefixOf (c :: rest) || hasSubstr needle rest

/-- Test `name.includes(BACKUP_EXTENSION)`: the name contains `".bak"` as a
substring. -/
def containsBak (name : String) : Bool :=
  hasSubstr BACKUP_EXTENSION.data name.data

/-- Mutable loop state of `scanFolder` before the final `needsMerge`
computation. -/
structure ScanState where
  baseFile : Option String
  workingFiles : List WorkingFileInfo
  backupFiles : List String
  myWorkingFile : Option String

/-- One iteration of the `for await` loop in `scanFolder`, for a file
entry called `name`. -/
def scanStep (currentUserEmail : String) (st : ScanState) (name : String) :
    ScanState :=
  if name = BASE_FILE_NAME then
    { st with baseFile := some name }
  else
    match extractEmailFromFileName name with
    | some email =>
        { st with
          workingFiles := st.workingFiles ++ [⟨email, name⟩],
          myWorkingFile :=
            if jsToLowerCase email = jsToLowerCase currentUserEmail
            then some name
            else st.myWorkingFile }
    | none =>
        if containsBak name then
          { st with backupFiles := st.backupFiles ++ [name] }
        else st

/-- Function `scanFolder`: classifies the folder's file entries (given in
directory-iteration order) and computes `needsMerge` from the working
files whose e-mail differs, lowercased, from the current user's. -/
def scanFolder (names : List String) (currentUserEmail : String) :
    FolderScanResult :=
  let st := names.foldl (scanStep currentUserEmail)
    ⟨none, [], [], none⟩
  let othersWorkingFiles := st.workingFiles.filter
    (fun wf => jsToLowerCase wf.email ≠ jsToLowerCase currentUserEmail)
  { baseFile := st.baseFile
    workingFiles := st.workingFiles
    backupFiles := st.backupFiles
    needsMerge := decide (0 < othersWorkingFiles.length)
    myWorkingFile := st.myWorkingFile }

/-- The working-file classification a single folder entry contributes. -/
def workingOf (name : String) : Option WorkingFileInfo :=
  if name = BASE_FILE_NAME then none
  else (extractEmailFromFileName name).map (fun e => ⟨e, name⟩)

/-! ## Solo-user checkpoint decision (`shouldCheckpoint`) -/
/-- Function `shouldCheckpoint`.  `parse` models `new Date(str).getTime()`:
`some t` milliseconds for a parseable timestamp and `none` for an
Invalid Date (`NaN`).  `new Date` never throws, so the source's `catch`
branch is unreachable; a `NaN` elapsed time makes `daysSince >= maxDays`
false.  The float division `daysSince = (now - t) / 86400000` is
rearranged into the exact integer comparison. -/
def shouldCheckpoint (parse : String → Option Int) (now : Int)
    (lastCheckpointStr : Option String) (maxDays : Int) : Bool :=
  match lastCheckpointStr with
  | none => true
  | some s =>
    if s = "" then true
    else
      match parse s with
      | none => false
      | some t => decide (maxDays * 86400000 ≤ now - t)

/-! ## Merge lock (`checkMergeLock`) -/
/-- Structure `MergeLockInfo`; `startedAt` is the parsed ISO timestamp in
milliseconds. -/
structure MergeLockInfo where
  email : String
  startedAt : Int
  workingFiles : List String
  deriving DecidableEq, Repr

/-- Function `checkMergeLock`, over a folder whose merge-lock file is either
absent or holds a parseable `MergeLockInfo`.  Returns the value the
caller receives together with the lock state left in the folder
(`removeMergeLock` deletes a stale lock as a side effect); `Date.now()`
is the parameter `now`. -/
def checkMergeLock (now : Int) (lock : Option MergeLockInfo) :
    Option MergeLockInfo × Option MergeLockInfo :=
  match lock with
  | none => (none, none)
  | some lockInfo =>
    let lockAge := now - lockInfo.startedAt
    let oneHour : Int := 60 * 60 * 1000
    if oneHour < lockAge then (none, none)
    else (some lockInfo, some lockInfo)

/-! ## File-system model

A shared directory maps each file name to its byte contents (directories
have unique names, so a partial function is the natural abstraction).
The File System Access API primitives used by the code are:
`getFile`/`arrayBuffer` (read), `getFileHandle(name, { create: true })`
(open-or-create, never an already-exists failure), `createWritable` /
`write` / `close` (contents become visible at `close`), and
`removeEntry` (delete). -/
/-- A folder: file name ↦ byte contents (`none` = no such file). -/
def Folder : Type := String → Option (List Nat)

/-- Read a file's bytes. -/
def lookupFile (folder : Folder) (name : String) : Option (List Nat) :=
  folder name

/-- Operation `getFileHandle(name, { create: true })`: creates an empty file when
none exists, otherwise leaves the existing one as is. -/
def createFileIfAbsent (folder : Folder) (name : String) : Folder :=
  fun m => if m = name then some ((folder name).getD []) else folder m

/-- Operation `createWritable(); write(data); close()` on `name`: replaces the
file's contents. -/
def setFile (folder : Folder) (name : String) (data : List Nat) : Folder :=
  fun m => if m = name then some data else folder m

/-- Operation `removeEntry(name)`. -/
def removeFile (folder : Folder) (name : String) : Folder :=
  fun m => if m = name then none else folder m

/-! ## `createWorkingFileFromBase` -/
/-- Function `createWorkingFileFromBase`: reads the base bytes (`baseData`) and
writes them into `schedule.<email>.db`.  `getFileHandle` is called with
`{ create: true }`, which opens an existing working file rather than
failing, so an existing working file is silently overwritten; the code
has no `AlreadyExists` failure path.  Returns the folder afterwards and
the created handle's file name. -/
def createWorkingFileFromBase (folder : Folder) (baseData : List Nat)
    (email : String) : Folder × String :=
  let workingFileName := createWorkingFileName email
  let workingHandle := createFileIfAbsent folder workingFileName
  (setFile workingHandle workingFileName baseData, workingFileName)

/-- A concrete folder that already contains the working file for author
`a@b`, with contents `[1, 2]`. -/
def folderWithWorkingFile : Folder :=
  fun m => if m = "schedule.a@b.db" then some [1, 2] else none

/-! ## `archiveWorkingFile` -/
/-- Outcome of an I/O sequence: the folder state at success or at the
point the failing operation aborted the function. -/
inductive ArchiveResult where
  | ok (folder : Folder)
  | failed (folder : Folder)

/-- Function `archiveWorkingFile` with fault injection.  The numbered primitive
operations are, in source order:
0. `workingFile.handle.getFile()` / `file.arrayBuffer()` (read),
1. `getFileHandle(backupFileName, { create: true })`,
2. `createWritable()` / `write(data)` / `close()` (backup contents
   become visible at `close`),
3. `removeEntry(workingFile.fileName)`.
`failAt = some k` makes operation `k` throw before taking effect; the
function then aborts with the folder as it stood. -/
def archiveWorkingFile (failAt : Option Nat) (today : String)
    (folder : Folder) (workingFileName : String) : ArchiveResult :=
  if failAt = some 0 then .failed folder else
  match lookupFile folder workingFileName with
  | none => .failed folder
  | some data =>
    let backupFileName := createBackupFileName today workingFileName
    if failAt = some 1 then .failed folder else
    let f1 := createFileIfAbsent folder backupFileName
    if failAt = some 2 then .failed f1 else
    let f2 := setFile f1 backupFileName data
    if failAt = some 3 then .failed f2 else
    .ok (removeFile f2 workingFileName)

/-! ## `updateBase` (C9)

`updateBase` rewrites the base through a
`FileSystemWritableFileStream`.  Per the File System Access API
contract, such a stream writes into a swap file and the target's
observable contents change only when `close()` commits the swap —
the "write to a temporary name, then rename" equivalent the spec
demands.  We model a file with an open stream and record the base's
observable contents after every step of
`createWritable(); write(mergedData); close()`. -/
/-- A file together with the swap buffer of an open writable stream. -/
structure StreamedFile where
  content : List Nat
  swap : Option (List Nat)
  deriving DecidableEq, Repr

/-- Step `createWritable()`: opens a stream with an empty swap buffer. -/
def wCreateWritable (f : StreamedFile) : StreamedFile :=
  { f with swap := some [] }

/-- Step `write(data)`: appends to the swap buffer; the observable contents
are untouched. -/
def wWrite (f : StreamedFile) (data : List Nat) : StreamedFile :=
  { f with swap := f.swap.map (fun b => b ++ data) }

/-- Step `close()`: commits the swap buffer as the new contents. -/
def wClose (f : StreamedFile) : StreamedFile :=
  { content := f.swap.getD f.content, swap := none }

/-- Function `updateBase(baseHandle, mergedData)`: the base file's state before
the call and after each of the three steps. -/
def updateBaseTrace (base : List Nat) (mergedData : List Nat) :
    List StreamedFile :=
  let f0 : StreamedFile := ⟨base, none⟩
  let f1 := wCreateWritable f0
  let f2 := wWrite f1 mergedData
  let f3 := wClose f2
  [f0, f1, f2, f3]

/-! ## Backup dates and `cleanupOldBackups` (C6)

`parseBackupDate` matches `BACKUP_FILE_PATTERN`
`/^schedule\..+\.db\.bak\.(\d{4}-\d{2}-\d{2})$/` and builds
`new Date(year, month - 1, day)` — a *local midnight*.  We model times
as integer milliseconds on the local-clock timeline (a fixed UTC offset
shifts both sides of every comparison equally, so comparisons are
unchanged).  `daysFromCivil` is the standard proleptic-Gregorian
day-number computation that JS `MakeDay` implements, and `jsMakeDay`
adds the `Date` constructor's month/day normalization and its
two-digit-year-means-19xx rule. -/
/-- Day number (days since 1970-01-01) of the civil date `y-m-d` with
`m ∈ [1, 12]`; `d` may lie outside the month and rolls over, exactly as
in ECMAScript `MakeDay`. -/
def daysFromCivil (y m d : Int) : Int :=
  let y' := if m ≤ 2 then y - 1 else y
  let era := Int.fdiv y' 400
  let yoe := y' - era * 400
  let mp := Int.emod (m + 9) 12
  let doy := Int.fdiv (153 * mp + 2) 5 + d - 1
  let doe := yoe * 365 + Int.fdiv yoe 4 - Int.fdiv yoe 100 + doy
  era * 146097 + doe - 719468

/-- Model of `new Date(year, month0, day)` (local midnight), as a day number:
two-digit years mean 1900 + year, out-of-range month indices roll into
adjacent years (`MakeDay`). -/
def jsMakeDay (year month0 day : Int) : Int :=
  let y := if 0 ≤ year ∧ year ≤ 99 then year + 1900 else year
  let ym := y + Int.fdiv month0 12
  let mn := Int.emod month0 12
  daysFromCivil ym (mn + 1) day

/-- Function `parseBackupDate`: on a full match of `BACKUP_FILE_PATTERN`,
`dateStr.split('-').map(Number)` then `new Date(year, month - 1, day)`;
the result is that local midnight in milliseconds.  Returns `none`
(JS `null`) when the name does not match. -/
def parseBackupDate (fileName : String) : Option Int :=
  let cs := fileName.data
  let n := cs.length
  match cs.drop (n - 10) with
  | [y1, y2, y3, y4, s1, m1, m2, s2, d1, d2] =>
    if 28 ≤ n ∧ cs.take 9 = "schedule.".data
        ∧ (cs.drop (n - 18)).take 8 = ".db.bak.".data
        ∧ ((cs.drop 9).take (n - 27)).all jsDot
        ∧ y1.isDigit ∧ y2.isDigit ∧ y3.isDigit ∧ y4.isDigit
        ∧ s1 = '-' ∧ m1.isDigit ∧ m2.isDigit
        ∧ s2 = '-' ∧ d1.isDigit ∧ d2.isDigit then
      let year : Int := (y1.toNat - 48) * 1000 + (y2.toNat - 48) * 100
        + (y3.toNat - 48) * 10 + (y4.toNat - 48)
      let month : Int := (m1.toNat - 48) * 10 + (m2.toNat - 48)
      let day : Int := (d1.toNat - 48) * 10 + (d2.toNat - 48)
      some (86400000 * jsMakeDay year (month - 1) day)
    else none
  | _ => none

/-- A file entry seen by the cleanup sweep; `deletable = false` models a
`removeEntry` call that throws (the `catch` branch that logs and
continues). -/
structure BackupEntry where
  name : String
  deletable : Bool
  deriving DecidableEq, Repr

/-- The condition under which the sweep deletes an entry:
`name.includes('.bak')`, the name parses as a backup, and the parsed
date is strictly before `cutoffDate = now − maxAgeDays` days. -/
def backupShouldDelete (now maxAgeDays : Int) (e : BackupEntry) : Bool :=
  containsBak e.name &&
    (match parseBackupDate e.name with
     | some d => decide (d < now - maxAgeDays * 86400000)
     | none => false)

/-- Function `cleanupOldBackups`: sweeps the folder entries, deleting matching
backups older than the cutoff; a failing delete is logged and skipped.
Returns `deletedCount` and the folder contents afterwards. -/
def cleanupOldBackups (now maxAgeDays : Int) :
    List BackupEntry → Nat × List BackupEntry
  | [] => (0, [])
  | e :: rest =>
    let (c, r) := cleanupOldBackups now maxAgeDays rest
    if containsBak e.name then
      match parseBackupDate e.name with
      | some d =>
        if d < now - maxAgeDays * 86400000 then
          if e.deletable then (c + 1, r) else (c, e :: r)
        else (c, e :: r)
      | none => (c, e :: r)
    else (c, e :: r)

/-- Local midnight at the start of 2025-12-26, in model milliseconds. -/
def midnight20251226 : Int := 86400000 * daysFromCivil 2025 12 26

/-! ## JS `Set` (insertion-order, first occurrence kept) -/
/-- Building a JS `Set` from a list: keep the first occurrence of each
element, in order; `seen` holds the elements already kept. -/
def dedupFirstAux (seen : List String) : List String → List String
  | [] => []
  | x :: xs =>
    if x ∈ seen then dedupFirstAux seen xs
    else x :: dedupFirstAux (x :: seen) xs

/-- Model of `new Set(l)`, as the list of its elements in iteration order. -/
def dedupFirst (l : List String) : List String := dedupFirstAux [] l

/-! ## Whole-database comparison (`MergeDialog.analyzeDbDifferences`, C2)

One table's comparison.  A row is its list of column values
(`SELECT *`); values are modelled as integers, which is enough for the
hash-set logic since `hashRow` only ever feeds `JSON.stringify`'s output
into equality tests.  `ORDER BY 1` only reorders the hash lists and is
irrelevant to the `Set`s built from them. -/
/-- Function `hashRow(row) = JSON.stringify(row)` for a row of numbers. -/
def hashRow (row : List Int) : String :=
  "[" ++ String.intercalate "," (row.map toString) ++ "]"

/-- Field `differenceType` of a `TableDiff`. -/
inductive DiffType where
  | none | count | content
  deriving DecidableEq, Repr

/-- One entry of the `diffs` array built by `analyzeDbDifferences`. -/
structure TableDiff where
  myCount : Nat
  theirCount : Nat
  hasDifferences : Bool
  differenceType : DiffType
  differenceDetails : String
  deriving DecidableEq, Repr

/-- The loop body of `analyzeDbDifferences` for one table, given the
rows of the two databases. -/
def analyzeTable (myRows theirRows : List (List Int)) : TableDiff :=
  let myCount := myRows.length
  let theirCount := theirRows.length
  if myCount ≠ theirCount then
    let diff : Int := (theirCount : Int) - (myCount : Int)
    let details :=
      if 0 < diff then s!"Their version has {diff} more row(s)"
      else
        let a := diff.natAbs
        s!"Your version has {a} more row(s)"
    ⟨myCount, theirCount, true, DiffType.count, details⟩
  else if 0 < myCount then
    let myHashes := dedupFirst (myRows.map hashRow)
    let theirHashes := dedupFirst (theirRows.map hashRow)
    let onlyInMine := (myHashes.filter (fun h => h ∉ theirHashes)).length
    let onlyInTheirs := (theirHashes.filter (fun h => h ∉ myHashes)).length
    if 0 < onlyInMine ∨ 0 < onlyInTheirs then
      ⟨myCount, theirCount, true, DiffType.content,
        s!"{onlyInMine} row(s) only in yours, {onlyInTheirs} row(s) only in theirs"⟩
    else
      ⟨myCount, theirCount, false, DiffType.none, ""⟩
  else
    ⟨myCount, theirCount, false, DiffType.none, ""⟩

/-- The `"content"` difference message. -/
def contentDetails (onlyInMine onlyInTheirs : Nat) : String :=
  s!"{onlyInMine} row(s) only in yours, {onlyInTheirs} row(s) only in theirs"

/-- The `"count"` difference message for `diff = theirCount - myCount`. -/
def countDetails (diff : Int) : String :=
  if 0 < diff then s!"Their version has {diff} more row(s)"
  else
    let a := diff.natAbs
    s!"Your version has {a} more row(s)"

/-! ## Differing fields of a conflict (`MergeConflictDialog.getDifferences`, C8)

Rows are JS objects: ordered maps from field name to scalar value.
Reading an absent field yields `undefined`.  Nested objects do not occur
in the tracked rows, so the `JSON.stringify` branch of `formatValue` is
not modelled. -/
/-- A JS scalar value as stored in a tracked row. -/
inductive JsVal where
  | vNull
  | vUndef
  | vStr (s : String)
  | vNum (n : Int)
  | vBool (b : Bool)
  deriving DecidableEq, Repr

/-- A row: field name ↦ value, in key-insertion order. -/
abbrev Row := List (String × JsVal)

/-- Access `row[key]`: the value, or `undefined` when the field is absent. -/
def jsGet (row : Row) (key : String) : JsVal :=
  ((row.find? (fun e => e.1 = key)).map Prod.snd).getD JsVal.vUndef

/-- Function `formatValue`: `null`/`undefined` ⇒ `'(empty)'`, otherwise
`String(value)`. -/
def formatValue : JsVal → String
  | .vNull => "(empty)"
  | .vUndef => "(empty)"
  | .vStr s => s
  | .vNum n => toString n
  | .vBool b => if b then "true" else "false"

/-- Function `getDifferences(rowA, rowB)`: over the union of both rows' keys
(a JS `Set`), skip the bookkeeping fields and list the keys whose
`formatValue`d values differ. -/
def getDifferences (rowA rowB : Option Row) : List String :=
  match rowA, rowB with
  | some a, some b =>
    let allKeys := dedupFirst (a.map Prod.fst ++ b.map Prod.fst)
    allKeys.filter (fun key =>
      !(key = "sync_id" || key = "modified_at" || key = "modified_by") &&
      !(formatValue (jsGet a key) = formatValue (jsGet b key)))
  | _, _ => []

/-! ## Theorems -/

/-- C10 (amended): for every non-empty author e-mail containing none of
the four JS line-terminator characters, extracting the e-mail from the
created working-file name gives back the e-mail. -/
theorem extractEmail_roundtrip (email : String) (hne : email ≠ "")
    (hlt : email.data.all jsDot = true) :
    extractEmailFromFileName (createWorkingFileName email) = some email := by
  obtain ⟨mid⟩ := email
  have hmid : mid ≠ [] := by
    intro h; exact hne (by simp [h])
  have hdata : ("schedule." ++ String.mk mid ++ ".db").data
      = "schedule.".data ++ (mid ++ ".db".data) := by
    simp [String.data_append]
  have h9 : ("schedule.".data).length = 9 := by decide
  have h3 : (".db".data).length = 3 := by decide
  have hk : 1 ≤ mid.length := List.length_pos.mpr hmid
  unfold extractEmailFromFileName createWorkingFileName
  simp only [hdata]
  have hlen : ("schedule.".data ++ (mid ++ ".db".data)).length
      = mid.length + 12 := by
    simp [List.length_append, h9, h3]
  have htake : ("schedule.".data ++ (mid ++ ".db".data)).take 9
      = "schedule.".data := by
    rw [← h9, List.take_left]
  have hdrop9 : ("schedule.".data ++ (mid ++ ".db".data)).drop 9
      = mid ++ ".db".data := by
    rw [← h9, List.drop_left]
  have hdrop : ("schedule.".data ++ (mid ++ ".db".data)).drop
      (mid.length + 12 - 3) = ".db".data := by
    have : ("schedule.".data ++ (mid ++ ".db".data))
        = ("schedule.".data ++ mid) ++ ".db".data := by
      rw [List.append_assoc]
    rw [this]
    have hl : ("schedule.".data ++ mid).length = mid.length + 12 - 3 := by
      simp [List.length_append, h9]
    rw [← hl, List.drop_left]
  have hmiddle : (("schedule.".data ++ (mid ++ ".db".data)).drop 9).take
      (mid.length + 12 - 12) = mid := by
    rw [hdrop9]
    have : mid.length + 12 - 12 = mid.length := by omega
    rw [this, List.take_left]
  rw [hlen, if_pos]
  · rw [hmiddle]
  · refine ⟨by omega, htake, hdrop, ?_⟩
    rw [hmiddle]; exact hlt

theorem scanFold_workingFiles (cu : String) :
    ∀ (names : List String) (st : ScanState),
      (names.foldl (scanStep cu) st).workingFiles
        = st.workingFiles ++ names.filterMap workingOf := by
  intro names
  induction names with
  | nil => intro st; simp
  | cons name rest ih =>
    intro st
    rw [List.foldl_cons, ih, List.filterMap_cons]
    unfold scanStep workingOf
    by_cases hb : name = BASE_FILE_NAME
    · simp [hb]
    · simp only [if_neg hb]
      cases hx : extractEmailFromFileName name with
      | none =>
        by_cases hbk : containsBak name <;> simp [hbk]
      | some e => simp

theorem extractEmail_base_none :
    extractEmailFromFileName BASE_FILE_NAME = none := by decide

/-- C1, as stated, is refuted: e-mails are compared lowercased, so a
working file whose author differs from the current author only by case
does not trigger `needsMerge`. -/
theorem scanFolder_needsMerge_cex :
    (scanFolder ["schedule.John@co.db"] "john@co").needsMerge = false ∧
    extractEmailFromFileName "schedule.John@co.db" = some "John@co" ∧
    ("John@co" : String) ≠ "john@co" := by
  refine ⟨by decide, by decide, by decide⟩

/-- C1 (amended): `needsMerge` is true iff the folder contains a working
file whose author e-mail differs from the current author's after
lowercasing both. -/
theorem scanFolder_needsMerge_amended (names : List String) (cu : String) :
    (scanFolder names cu).needsMerge = true ↔
      ∃ name ∈ names, ∃ e, extractEmailFromFileName name = some e ∧
        jsToLowerCase e ≠ jsToLowerCase cu := by
  unfold scanFolder
  simp only [scanFold_workingFiles, List.nil_append]
  rw [decide_eq_true_iff]
  rw [List.length_pos_iff_exists_mem]
  constructor
  · rintro ⟨wf, hwf⟩
    rw [List.mem_filter] at hwf
    obtain ⟨hmem, hp⟩ := hwf
    rw [List.mem_filterMap] at hmem
    obtain ⟨name, hn, hw⟩ := hmem
    unfold workingOf at hw
    by_cases hb : name = BASE_FILE_NAME
    · simp [hb] at hw
    · rw [if_neg hb] at hw
      cases he : extractEmailFromFileName name with
      | none => rw [he] at hw; simp at hw
      | some e =>
        rw [he] at hw
        simp only [Option.map_some'] at hw
        have hwf : wf = ⟨e, name⟩ := (Option.some.inj hw).symm
        refine ⟨name, hn, e, he, ?_⟩
        rw [hwf] at hp
        exact of_decide_eq_true hp
  · rintro ⟨name, hn, e, he, hne⟩
    have hb : name ≠ BASE_FILE_NAME := by
      intro h; rw [h, extractEmail_base_none] at he; exact Option.noConfusion he
    refine ⟨⟨e, name⟩, ?_⟩
    rw [List.mem_filter]
    refine ⟨?_, by simpa using hne⟩
    rw [List.mem_filterMap]
    exact ⟨name, hn, by unfold workingOf; rw [if_neg hb, he]; rfl⟩

/-- C10 is refuted for e-mails containing a carriage return: `'\r'` is
not a newline (`'\n'`), but the JS regex `.` in `WORKING_FILE_PATTERN`
refuses it, so the round-trip fails. -/
theorem extractEmail_roundtrip_cex :
    ("a\rb" : String) ≠ "" ∧ '\n' ∉ ("a\rb" : String).data ∧
    extractEmailFromFileName (createWorkingFileName "a\rb") = none := by
  refine ⟨by decide, by decide, by decide⟩

theorem extractEmail_roundtrip_witness :
    extractEmailFromFileName (createWorkingFileName "john@company.com")
      = some "john@company.com" :=
  extractEmail_roundtrip "john@company.com" (by decide) (by decide)

/-- C7 is refuted at the boundary: with the last checkpoint exactly
`maxDays` days old, the elapsed time does not exceed `maxDays` and a
prior checkpoint exists, yet `shouldCheckpoint` returns `true` (the code
compares with `>=`, not `>`). -/
theorem shouldCheckpoint_cex :
    shouldCheckpoint (fun _ => some 0) (3 * 86400000)
      (some "1970-01-01T00:00:00.000Z") 3 = true ∧
    ¬ ((3 * 86400000 : Int) - 0 > 3 * 86400000) ∧
    some "1970-01-01T00:00:00.000Z" ≠ (none : Option String) := by
  refine ⟨by decide, by decide, by decide⟩

/-- C7 (amended): `shouldCheckpoint` returns true iff no prior
checkpoint exists (`null` or the empty string), or the timestamp parses
and at least `maxDays` days have elapsed (`≥`, not strictly more); a
non-empty unparseable timestamp yields `false`. -/
theorem shouldCheckpoint_amended (parse : String → Option Int) (now : Int)
    (last : Option String) (maxDays : Int) :
    shouldCheckpoint parse now last maxDays = true ↔
      (last = none ∨ last = some "" ∨
       ∃ s t, last = some s ∧ s ≠ "" ∧ parse s = some t ∧
         maxDays * 86400000 ≤ now - t) := by
  cases last with
  | none => simp [shouldCheckpoint]
  | some s =>
    by_cases hs : s = ""
    · simp [shouldCheckpoint, hs]
    · cases hp : parse s with
      | none => simp [shouldCheckpoint, hs, hp]
      | some t => simp [shouldCheckpoint, hs, hp]

/-- C5: a lock whose `startedAt` lies strictly more than one hour in the
past is reported absent and its file deleted; a lock at most one hour
old is returned to the caller (and kept). -/
theorem checkMergeLock_staleness (now : Int) (info : MergeLockInfo) :
    ((3600000 : Int) < now - info.startedAt →
      checkMergeLock now (some info) = (none, none)) ∧
    (now - info.startedAt ≤ 3600000 →
      checkMergeLock now (some info) = (some info, some info)) := by
  constructor <;> intro h <;> simp only [checkMergeLock] <;>
    split <;> first | rfl | omega

theorem checkMergeLock_staleness_witness :
    checkMergeLock 7200000 (some ⟨"a@b.c", 0, []⟩) = (none, none) ∧
    checkMergeLock 1000 (some ⟨"a@b.c", 0, []⟩)
      = (some ⟨"a@b.c", 0, []⟩, some ⟨"a@b.c", 0, []⟩) :=
  ⟨(checkMergeLock_staleness 7200000 ⟨"a@b.c", 0, []⟩).1 (by decide),
   (checkMergeLock_staleness 1000 ⟨"a@b.c", 0, []⟩).2 (by decide)⟩

/-- C3 is refuted: with a working file for `a@b` already present,
`createWorkingFileFromBase` does not fail — it returns the handle and
overwrites the existing file with the base's bytes. -/
theorem createWorkingFileFromBase_cex :
    lookupFile folderWithWorkingFile "schedule.a@b.db" = some [1, 2] ∧
    (createWorkingFileFromBase folderWithWorkingFile [9, 9] "a@b").2
      = "schedule.a@b.db" ∧
    lookupFile (createWorkingFileFromBase folderWithWorkingFile [9, 9] "a@b").1
      "schedule.a@b.db" = some [9, 9] :=
  ⟨rfl, rfl, rfl⟩

/-- C3 (amended): `createWorkingFileFromBase` copies the base's bytes
verbatim into the working file named for the author, overwriting any
existing working file for that author (it does not fail with
`AlreadyExists`); all other files are untouched. -/
theorem createWorkingFileFromBase_spec (folder : Folder)
    (baseData : List Nat) (email : String) :
    (createWorkingFileFromBase folder baseData email).2
      = createWorkingFileName email ∧
    lookupFile (createWorkingFileFromBase folder baseData email).1
      (createWorkingFileName email) = some baseData ∧
    ∀ n, n ≠ createWorkingFileName email →
      lookupFile (createWorkingFileFromBase folder baseData email).1 n
        = lookupFile folder n := by
  refine ⟨rfl, ?_, ?_⟩
  · simp [createWorkingFileFromBase, lookupFile, setFile]
  · intro n hn
    simp [createWorkingFileFromBase, lookupFile, setFile,
      createFileIfAbsent, hn]

theorem createWorkingFileFromBase_spec_witness :
    lookupFile
      (createWorkingFileFromBase folderWithWorkingFile [7] "x@y").1
      "schedule.a@b.db" = lookupFile folderWithWorkingFile "schedule.a@b.db" :=
  (createWorkingFileFromBase_spec folderWithWorkingFile [7] "x@y").2.2
    "schedule.a@b.db" (by decide)

theorem createBackupFileName_ne (today workingFileName : String) :
    createBackupFileName today workingFileName ≠ workingFileName := by
  intro h
  have hlen := congrArg String.length h
  have h4 : (BACKUP_EXTENSION).length = 4 := rfl
  have h1 : ("." : String).length = 1 := rfl
  rw [createBackupFileName, String.length_append, String.length_append,
    String.length_append, h4, h1] at hlen
  omega

/-- C4: `archiveWorkingFile` deletes the original only as its final
step, after the backup write completed.  Whatever single operation
fails, the original working file still exists with its original bytes;
on success the backup carries the original bytes and the original is
gone. -/
theorem archiveWorkingFile_atomic (failAt : Option Nat) (today : String)
    (folder : Folder) (workingFileName : String) :
    (∀ f', archiveWorkingFile failAt today folder workingFileName
        = .failed f' →
      lookupFile f' workingFileName = lookupFile folder workingFileName) ∧
    (∀ f', archiveWorkingFile failAt today folder workingFileName
        = .ok f' →
      lookupFile f' workingFileName = none ∧
      lookupFile f' (createBackupFileName today workingFileName)
        = lookupFile folder workingFileName) := by
  have hne : workingFileName ≠ createBackupFileName today workingFileName :=
    fun h => createBackupFileName_ne today workingFileName h.symm
  unfold archiveWorkingFile
  by_cases h0 : failAt = some 0
  · rw [if_pos h0]
    exact ⟨fun f' h => by cases h; rfl, fun f' h => by cases h⟩
  rw [if_neg h0]
  cases hl : lookupFile folder workingFileName with
  | none =>
    exact ⟨fun f' h => by cases h; exact hl, fun f' h => by cases h⟩
  | some data =>
    dsimp only
    by_cases h1 : failAt = some 1
    · rw [if_pos h1]
      exact ⟨fun f' h => by cases h; exact hl, fun f' h => by cases h⟩
    rw [if_neg h1]
    by_cases h2 : failAt = some 2
    · rw [if_pos h2]
      refine ⟨fun f' h => ?_, fun f' h => by cases h⟩
      cases h
      simpa [lookupFile, createFileIfAbsent, hne] using hl
    rw [if_neg h2]
    by_cases h3 : failAt = some 3
    · rw [if_pos h3]
      refine ⟨fun f' h => ?_, fun f' h => by cases h⟩
      cases h
      simpa [lookupFile, setFile, createFileIfAbsent, hne] using hl
    rw [if_neg h3]
    constructor
    · intro f' h
      cases h
    · intro f' h
      cases h
      constructor
      · simp [lookupFile, removeFile]
      · simp [lookupFile, removeFile, setFile, Ne.symm hne]

theorem archiveWorkingFile_atomic_witness :
    archiveWorkingFile (some 2) "2025-12-26" folderWithWorkingFile
        "schedule.a@b.db"
      = .failed (createFileIfAbsent folderWithWorkingFile
          "schedule.a@b.db.bak.2025-12-26") ∧
    lookupFile (createFileIfAbsent folderWithWorkingFile
        "schedule.a@b.db.bak.2025-12-26") "schedule.a@b.db"
      = lookupFile folderWithWorkingFile "schedule.a@b.db" :=
  ⟨rfl,
   (archiveWorkingFile_atomic (some 2) "2025-12-26" folderWithWorkingFile
      "schedule.a@b.db").1
     (createFileIfAbsent folderWithWorkingFile
       "schedule.a@b.db.bak.2025-12-26") rfl⟩

/-- C9: at every point during `updateBase` the observable base contents
are either the old base or the complete merged data — never a partial
write — and the final contents are the merged data. -/
theorem updateBase_atomic (base mergedData : List Nat) :
    (∀ s ∈ updateBaseTrace base mergedData,
        s.content = base ∨ s.content = mergedData) ∧
    ((updateBaseTrace base mergedData).getLast?.map StreamedFile.content
        = some mergedData) := by
  constructor
  · intro s hs
    simp only [updateBaseTrace, wCreateWritable, wWrite, wClose,
      List.mem_cons, List.mem_singleton] at hs
    rcases hs with h | h | h | h | h
    · exact Or.inl (by rw [h])
    · exact Or.inl (by rw [h])
    · exact Or.inl (by rw [h])
    · refine Or.inr ?_
      rw [h]
      simp
    · cases h
  · simp [updateBaseTrace, wCreateWritable, wWrite, wClose]

theorem updateBase_atomic_witness :
    ((⟨[0], some []⟩ : StreamedFile) ∈ updateBaseTrace [0] [1, 2]) ∧
    ((⟨[0], some []⟩ : StreamedFile).content = [0] ∨
     (⟨[0], some []⟩ : StreamedFile).content = [1, 2]) :=
  ⟨by decide, (updateBase_atomic [0] [1, 2]).1 ⟨[0], some []⟩ (by decide)⟩

theorem daysFromCivil_epoch : daysFromCivil 1970 1 1 = 0 := by decide

/-- C6 is refuted at a midnight boundary: when `now` is exactly a local
midnight, a backup whose embedded date is exactly `maxAgeDays` days ago
equals the cutoff, is not strictly older, and is retained — the claim
says it is deleted. -/
theorem cleanupOldBackups_cex :
    parseBackupDate "schedule.a@b.db.bak.2025-12-23"
      = some (midnight20251226 - 3 * 86400000) ∧
    cleanupOldBackups midnight20251226 3
        [⟨"schedule.a@b.db.bak.2025-12-23", true⟩]
      = (0, [⟨"schedule.a@b.db.bak.2025-12-23", true⟩]) := by
  refine ⟨by decide, by decide⟩

/-- C6 (amended): the sweep deletes exactly the deletable entries whose
name matches the backup pattern with an embedded date (a local
midnight) strictly older than `now − maxAgeDays` days, and returns
their number; a failing deletion leaves its file in place without
aborting the sweep, and any backup whose embedded midnight is at or
after the cutoff — in particular one dated `maxAgeDays − 1` days ago,
or one dated exactly `maxAgeDays` days ago when `now` is itself a
midnight — is retained. -/
theorem cleanupOldBackups_spec (now maxAgeDays : Int)
    (folder : List BackupEntry) :
    (cleanupOldBackups now maxAgeDays folder).1
      = (folder.filter
          (fun e => backupShouldDelete now maxAgeDays e && e.deletable)).length ∧
    (cleanupOldBackups now maxAgeDays folder).2
      = folder.filter
          (fun e => !(backupShouldDelete now maxAgeDays e && e.deletable)) ∧
    (∀ e ∈ folder, ∀ d, parseBackupDate e.name = some d →
      now - maxAgeDays * 86400000 ≤ d →
      e ∈ (cleanupOldBackups now maxAgeDays folder).2) := by
  have hmain : (cleanupOldBackups now maxAgeDays folder).1
      = (folder.filter
          (fun e => backupShouldDelete now maxAgeDays e && e.deletable)).length ∧
      (cleanupOldBackups now maxAgeDays folder).2
      = folder.filter
          (fun e => !(backupShouldDelete now maxAgeDays e && e.deletable)) := by
    induction folder with
    | nil => exact ⟨rfl, rfl⟩
    | cons e rest ih =>
      obtain ⟨ih1, ih2⟩ := ih
      by_cases hcb : containsBak e.name
      · cases hp : parseBackupDate e.name with
        | some d =>
          by_cases hlt : d < now - maxAgeDays * 86400000
          · by_cases hdel : e.deletable
            · simp [cleanupOldBackups, backupShouldDelete, hcb, hp, hlt,
                hdel, ih1, ih2]
            · simp [cleanupOldBackups, backupShouldDelete, hcb, hp, hlt,
                hdel, ih1, ih2]
          · simp [cleanupOldBackups, backupShouldDelete, hcb, hp, hlt,
              ih1, ih2]
        | none =>
          simp [cleanupOldBackups, backupShouldDelete, hcb, hp, ih1, ih2]
      · simp [cleanupOldBackups, backupShouldDelete, hcb, ih1, ih2]
  refine ⟨hmain.1, hmain.2, ?_⟩
  intro e he d hpd hge
  rw [hmain.2, List.mem_filter]
  refine ⟨he, ?_⟩
  have hnlt : ¬ (d < now - maxAgeDays * 86400000) := by omega
  simp [backupShouldDelete, hpd, hnlt]

theorem cleanupOldBackups_spec_witness :
    (⟨"schedule.a@b.db.bak.2025-12-24", true⟩ : BackupEntry)
        ∈ [(⟨"schedule.a@b.db.bak.2025-12-24", true⟩ : BackupEntry)] ∧
    parseBackupDate "schedule.a@b.db.bak.2025-12-24"
      = some (midnight20251226 - 2 * 86400000) ∧
    midnight20251226 - 3 * 86400000
        ≤ midnight20251226 - 2 * 86400000 ∧
    (⟨"schedule.a@b.db.bak.2025-12-24", true⟩ : BackupEntry)
        ∈ (cleanupOldBackups midnight20251226 3
            [⟨"schedule.a@b.db.bak.2025-12-24", true⟩]).2 :=
  ⟨by decide, by decide, by decide,
   (cleanupOldBackups_spec midnight20251226 3
      [⟨"schedule.a@b.db.bak.2025-12-24", true⟩]).2.2
     ⟨"schedule.a@b.db.bak.2025-12-24", true⟩ (by decide)
     (midnight20251226 - 2 * 86400000) (by decide) (by decide)⟩

theorem mem_dedupFirstAux (x : String) :
    ∀ (l : List String) (seen : List String),
      x ∈ dedupFirstAux seen l ↔ x ∈ l ∧ x ∉ seen := by
  intro l
  induction l with
  | nil => intro seen; simp [dedupFirstAux]
  | cons y ys ih =>
    intro seen
    unfold dedupFirstAux
    by_cases hy : y ∈ seen
    · rw [if_pos hy, ih]
      constructor
      · rintro ⟨hx, hns⟩
        exact ⟨List.mem_cons_of_mem y hx, hns⟩
      · rintro ⟨hx, hns⟩
        rcases List.mem_cons.mp hx with rfl | hx
        · exact absurd hy hns
        · exact ⟨hx, hns⟩
    · rw [if_neg hy]
      rw [List.mem_cons, ih]
      constructor
      · rintro (rfl | ⟨hx, hns⟩)
        · exact ⟨List.mem_cons_self x ys, hy⟩
        · refine ⟨List.mem_cons_of_mem y hx, fun hxs => hns ?_⟩
          exact List.mem_cons_of_mem y hxs
      · rintro ⟨hx, hns⟩
        rcases List.mem_cons.mp hx with rfl | hx
        · exact Or.inl rfl
        · by_cases hxy : x = y
          · exact Or.inl hxy
          · refine Or.inr ⟨hx, fun hmem => ?_⟩
            rcases List.mem_cons.mp hmem with h | h
            · exact hxy h
            · exact hns h

theorem mem_dedupFirst (x : String) (l : List String) :
    x ∈ dedupFirst l ↔ x ∈ l := by
  rw [dedupFirst, mem_dedupFirstAux]
  simp

theorem nodup_dedupFirstAux :
    ∀ (l : List String) (seen : List String),
      (dedupFirstAux seen l).Nodup := by
  intro l
  induction l with
  | nil => intro seen; simp [dedupFirstAux]
  | cons y ys ih =>
    intro seen
    unfold dedupFirstAux
    by_cases hy : y ∈ seen
    · rw [if_pos hy]; exact ih seen
    · rw [if_neg hy]
      refine List.Nodup.cons ?_ (ih (y :: seen))
      intro hmem
      rcases (mem_dedupFirstAux y ys (y :: seen)).mp hmem with ⟨_, hns⟩
      exact hns (List.mem_cons_self y seen)

theorem nodup_dedupFirst (l : List String) : (dedupFirst l).Nodup :=
  nodup_dedupFirstAux l []

/-- The number of distinct elements of `l` that do not occur in `l'`,
computed the way the merge dialog's `Set` loop does, equals the
cardinality of the set difference. -/
theorem dedupFirst_filter_not_mem_length (l l' : List String) :
    ((dedupFirst l).filter (fun h => h ∉ l')).length
      = (l.toFinset \ l'.toFinset).card := by
  have hnd : ((dedupFirst l).filter (fun h => h ∉ l')).Nodup :=
    (nodup_dedupFirst l).filter _
  have hts : ((dedupFirst l).filter (fun h => h ∉ l')).toFinset
      = l.toFinset \ l'.toFinset := by
    ext x
    simp only [List.mem_toFinset, List.mem_filter, Finset.mem_sdiff,
      mem_dedupFirst, decide_eq_true_eq]
  rw [← List.toFinset_card_of_nodup hnd, hts]

theorem toFinset_dedupFirst (l : List String) :
    (dedupFirst l).toFinset = l.toFinset := by
  ext x
  simp [mem_dedupFirst]

/-- C2 is refuted: with equal counts, differing row-hash *multisets* but
equal row-hash *sets* (duplicate rows), the comparison reports no
difference at all — the code compares JS `Set`s, not multisets. -/
theorem analyzeTable_cex :
    (([[0], [0], [1]] : List (List Int)).length
        = ([[0], [1], [1]] : List (List Int)).length) ∧
    ((([[0], [0], [1]] : List (List Int)).map hashRow : Multiset String)
        ≠ (([[0], [1], [1]] : List (List Int)).map hashRow : Multiset String)) ∧
    (analyzeTable [[0], [0], [1]] [[0], [1], [1]]).differenceType
        = DiffType.none ∧
    (analyzeTable [[0], [0], [1]] [[0], [1], [1]]).hasDifferences = false := by
  refine ⟨by decide, by decide, by decide, by decide⟩

/-- C2 (amended): per table, with row hashes compared as *sets*
(duplicates collapsed): equal counts and equal hash sets ⇒ no reported
difference; equal non-zero counts and differing hash sets ⇒ a
content-level difference reporting the number of distinct hashes only
in each side; unequal counts ⇒ a count-level difference reporting the
signed delta `theirCount − myCount`. -/
theorem analyzeTable_spec (myRows theirRows : List (List Int)) :
    ((myRows.length = theirRows.length) →
      (myRows.map hashRow).toFinset = (theirRows.map hashRow).toFinset →
      analyzeTable myRows theirRows
        = ⟨myRows.length, theirRows.length, false, DiffType.none, ""⟩) ∧
    ((myRows.length = theirRows.length) → myRows ≠ [] →
      (myRows.map hashRow).toFinset ≠ (theirRows.map hashRow).toFinset →
      analyzeTable myRows theirRows
        = ⟨myRows.length, theirRows.length, true, DiffType.content,
            contentDetails
              (((myRows.map hashRow).toFinset
                  \ (theirRows.map hashRow).toFinset).card)
              (((theirRows.map hashRow).toFinset
                  \ (myRows.map hashRow).toFinset).card)⟩) ∧
    ((myRows.length ≠ theirRows.length) →
      analyzeTable myRows theirRows
        = ⟨myRows.length, theirRows.length, true, DiffType.count,
            countDetails ((theirRows.length : Int) - (myRows.length : Int))⟩) := by
  have hOM : ((dedupFirst (myRows.map hashRow)).filter
      (fun h => h ∉ dedupFirst (theirRows.map hashRow))).length
      = ((myRows.map hashRow).toFinset
          \ (theirRows.map hashRow).toFinset).card := by
    rw [dedupFirst_filter_not_mem_length, toFinset_dedupFirst]
  have hOT : ((dedupFirst (theirRows.map hashRow)).filter
      (fun h => h ∉ dedupFirst (myRows.map hashRow))).length
      = ((theirRows.map hashRow).toFinset
          \ (myRows.map hashRow).toFinset).card := by
    rw [dedupFirst_filter_not_mem_length, toFinset_dedupFirst]
  refine ⟨?_, ?_, ?_⟩
  · intro hlen hset
    simp only [analyzeTable]
    rw [if_neg (not_not_intro hlen)]
    by_cases hpos : 0 < myRows.length
    · have h1 : ((dedupFirst (myRows.map hashRow)).filter
          (fun h => h ∉ dedupFirst (theirRows.map hashRow))).length = 0 := by
        rw [hOM, hset]
        simp
      have h2 : ((dedupFirst (theirRows.map hashRow)).filter
          (fun h => h ∉ dedupFirst (myRows.map hashRow))).length = 0 := by
        rw [hOT, hset]
        simp
      rw [if_pos hpos, if_neg (by rw [h1, h2]; simp)]
    · rw [if_neg hpos]
  · intro hlen hne hset
    simp only [analyzeTable]
    rw [if_neg (not_not_intro hlen)]
    have hpos : 0 < myRows.length := List.length_pos.mpr hne
    have hcond : 0 < ((dedupFirst (myRows.map hashRow)).filter
        (fun h => h ∉ dedupFirst (theirRows.map hashRow))).length ∨
        0 < ((dedupFirst (theirRows.map hashRow)).filter
        (fun h => h ∉ dedupFirst (myRows.map hashRow))).length := by
      rw [hOM, hOT]
      by_contra hcon
      push_neg at hcon
      obtain ⟨h1, h2⟩ := hcon
      have e1 : (myRows.map hashRow).toFinset
          \ (theirRows.map hashRow).toFinset = ∅ :=
        Finset.card_eq_zero.mp (by omega)
      have e2 : (theirRows.map hashRow).toFinset
          \ (myRows.map hashRow).toFinset = ∅ :=
        Finset.card_eq_zero.mp (by omega)
      exact hset (Finset.Subset.antisymm
        (Finset.sdiff_eq_empty_iff_subset.mp e1)
        (Finset.sdiff_eq_empty_iff_subset.mp e2))
    rw [if_pos hpos, if_pos hcond, hOM, hOT]
    rfl
  · intro hlen
    simp only [analyzeTable]
    rw [if_pos hlen]
    rfl

theorem analyzeTable_spec_witness :
    (analyzeTable [[0], [1]] [[1], [0]]
        = ⟨2, 2, false, DiffType.none, ""⟩) ∧
    (analyzeTable [[0]] [[1]]
        = ⟨1, 1, true, DiffType.content, contentDetails 1 1⟩) ∧
    (analyzeTable [[0]] [[0], [1]]
        = ⟨1, 2, true, DiffType.count, countDetails 1⟩) :=
  ⟨by
    have h := (analyzeTable_spec [[0], [1]] [[1], [0]]).1 (by decide)
      (by decide)
    simpa using h,
   by
    have h := (analyzeTable_spec [[0]] [[1]]).2.1 (by decide) (by decide)
      (by decide)
    have hc1 : ((([[0]] : List (List Int)).map hashRow).toFinset
        \ (([[1]] : List (List Int)).map hashRow).toFinset).card = 1 := by
      decide
    have hc2 : ((([[1]] : List (List Int)).map hashRow).toFinset
        \ (([[0]] : List (List Int)).map hashRow).toFinset).card = 1 := by
      decide
    rw [hc1, hc2] at h
    simpa using h,
   by
    have h := (analyzeTable_spec [[0]] [[0], [1]]).2.2 (by decide)
    simpa using h⟩

/-- C8 is refuted: the number `5` and the string `"5"` are different
values, but both format to `"5"`, so the field `x` is not listed even
though the two rows' values differ there. -/
theorem getDifferences_cex :
    getDifferences (some [("x", JsVal.vNum 5)]) (some [("x", JsVal.vStr "5")])
        = [] ∧
    JsVal.vNum 5 ≠ JsVal.vStr "5" := by
  refine ⟨by decide, by decide⟩

/-- C8 (amended): the listed fields are exactly the keys occurring in
either row that are not bookkeeping fields (`sync_id`, `modified_at`,
`modified_by`) and whose *display-formatted* values differ —
`formatValue` collapses `null`, `undefined` and absence to `'(empty)'`
and renders other scalars with `String(...)`. -/
theorem getDifferences_spec (a b : Row) (k : String) :
    k ∈ getDifferences (some a) (some b) ↔
      ((k ∈ a.map Prod.fst ∨ k ∈ b.map Prod.fst) ∧
       (k ≠ "sync_id" ∧ k ≠ "modified_at" ∧ k ≠ "modified_by") ∧
       formatValue (jsGet a k) ≠ formatValue (jsGet b k)) := by
  unfold getDifferences
  simp only [List.mem_filter, mem_dedupFirst, List.mem_append,
    Bool.and_eq_true, Bool.not_eq_true', Bool.or_eq_false_iff,
    decide_eq_true_eq, decide_eq_false_iff_not]
  tauto

end SchedAssist
